import Mathlib

/-!
Verification of the trading-algo execution core against its specification.

The definitions below are a shallow embedding of the Python sources:
* `src/strategy/fvg_strategy.py` — the `FVGStrategy` class (position state
  machine, exit-order management, breakeven adjustment);
* `src/strategy_manager.py` — the `StrategyManager` process supervisor, the
  `run_strategy` event loop and its log channel.

Broker interactions (`place_order`, `cancel_order`, `get_order_status`,
`get_quote`) are modelled as oracle inputs supplied per control-loop cycle;
observable side effects (order placements, cancellations, status writes,
log lines) are recorded in an event trace. Prices are embedded as `ℚ`.
-/

namespace TradingAlgo

/-- Position lifecycle statuses, the string constants of `fvg_strategy.py`. -/
inductive PosStatus
  | PENDING_ENTRY
  | OPEN
  | CLOSED_SL
  | CLOSED_TARGET
deriving DecidableEq

/-- Position direction, the `'LONG'` / `'SHORT'` strings of the source. -/
inductive PosType
  | LONG
  | SHORT
deriving DecidableEq

/-- Broker order statuses as compared against in the source (`'FILLED'`). -/
inductive OrderStatus
  | PENDING
  | FILLED
  | CANCELLED
  | REJECTED
deriving DecidableEq

/-- The dict stored in `self.positions[symbol]` by `FVGStrategy._place_order`.
`sl_order_id` and `target_order_id` are `Option` because the keys are absent
until `place_exit_orders` succeeds in setting them (a plain dict access of a
missing key raises `KeyError`, modelled by `getField`). -/
structure Position where
  order_id : Nat
  entry_price : ℚ
  stop_loss : ℚ
  target : ℚ
  status : PosStatus
  type : PosType
  sl_order_id : Option Nat := none
  target_order_id : Option Nat := none
deriving DecidableEq

/-- Broker reply to `place_order`: `.status` (the source compares it with the
string `'ok'`) and the order id assigned on success. -/
structure PlaceResp where
  status : String
  order_id : Nat
deriving DecidableEq

/-- Signal data computed by `check_long_entry_conditions` /
`check_short_entry_conditions` (entry, stop and target prices and direction);
the numeric indicator pipeline producing it is external to the core. -/
structure Signal where
  entry_price : ℚ
  stop_loss : ℚ
  target : ℚ
  type : PosType
deriving DecidableEq

/-- Oracle data consumed by one position during one control-loop cycle:
the entry-order status polled by `check_open_orders`, the responses to the
exit-order placements made from the fill path and from the breakeven path,
the quote and the two exit-order statuses polled by `manage_positions`, and
the analysis outcome used by `analyze_and_trade`. -/
structure CycleInput where
  entryStatus : OrderStatus
  entryPlaceSl : PlaceResp
  entryPlaceTgt : PlaceResp
  last_price : ℚ
  slPlace : PlaceResp
  tgtPlace : PlaceResp
  slStatus : OrderStatus
  tgtStatus : OrderStatus
  signal : Option Signal
  signalResp : PlaceResp
deriving DecidableEq

/-- Observable side effects of one position step, in program order. -/
inductive Event
  | placeEntryOrder (price : ℚ)
  | placeStop (price : ℚ)
  | placeLimit (price : ℚ)
  | cancel (id : Nat)
  | setStatus (s : PosStatus)
  | breakevenLog
deriving DecidableEq

/-- Python dict access `pos[key]`: raises `KeyError` when the key is absent. -/
def getField (o : Option Nat) (k : String) : Except String Nat :=
  match o with
  | some v => Except.ok v
  | none => Except.error ("KeyError: " ++ k)

/-- `FVGStrategy.place_exit_orders` (lines 51-79): place a stop order at
`pos['stop_loss']`, record its id if the reply is `'ok'`, then place a limit
order at `pos['target']`, recording its id likewise. -/
def place_exit_orders (pos : Position) (slResp tgtResp : PlaceResp) :
    Position × List Event :=
  let pos1 := if slResp.status = "ok" then
    { pos with sl_order_id := some slResp.order_id } else pos
  let pos2 := if tgtResp.status = "ok" then
    { pos1 with target_order_id := some tgtResp.order_id } else pos1
  (pos2, [Event.placeStop pos.stop_loss, Event.placeLimit pos.target])

/-- The body of `FVGStrategy.check_open_orders` (lines 43-49) for one tracked
position: when the position is `PENDING_ENTRY` and the entry order polls
`FILLED`, the source first assigns `pos['status'] = 'OPEN'` and only then
calls `place_exit_orders`. -/
def check_open_orders_step (pos : Position) (inp : CycleInput) :
    Position × List Event :=
  if pos.status = PosStatus.PENDING_ENTRY then
    if inp.entryStatus = OrderStatus.FILLED then
      let pos1 := { pos with status := PosStatus.OPEN }
      let pe := place_exit_orders pos1 inp.entryPlaceSl inp.entryPlaceTgt
      (pe.1, Event.setStatus PosStatus.OPEN :: pe.2)
    else (pos, [])
  else (pos, [])

/-- The breakeven block of `FVGStrategy.manage_positions` (lines 180-195):
for a LONG position, when the quote has reached
`entry_price + (target - entry_price)/2` and `stop_loss < entry_price`,
cancel both exit orders, set `stop_loss = entry_price`, re-place the exit
orders and log; symmetrically for SHORT. -/
def breakeven_check (pos : Position) (inp : CycleInput) :
    Except String (Position × List Event) :=
  match pos.type with
  | PosType.LONG =>
    if pos.entry_price + (pos.target - pos.entry_price) / 2 ≤ inp.last_price then
      if pos.stop_loss < pos.entry_price then do
        let slId ← getField pos.sl_order_id ("sl_order_id")
        let tgtId ← getField pos.target_order_id ("target_order_id")
        let pos1 := { pos with stop_loss := pos.entry_price }
        let pe := place_exit_orders pos1 inp.slPlace inp.tgtPlace
        Except.ok (pe.1,
          Event.cancel slId :: Event.cancel tgtId :: pe.2 ++ [Event.breakevenLog])
      else Except.ok (pos, [])
    else Except.ok (pos, [])
  | PosType.SHORT =>
    if inp.last_price ≤ pos.entry_price - (pos.entry_price - pos.target) / 2 then
      if pos.entry_price < pos.stop_loss then do
        let slId ← getField pos.sl_order_id ("sl_order_id")
        let tgtId ← getField pos.target_order_id ("target_order_id")
        let pos1 := { pos with stop_loss := pos.entry_price }
        let pe := place_exit_orders pos1 inp.slPlace inp.tgtPlace
        Except.ok (pe.1,
          Event.cancel slId :: Event.cancel tgtId :: pe.2 ++ [Event.breakevenLog])
      else Except.ok (pos, [])
    else Except.ok (pos, [])

/-- The fill-reconciliation tail of `FVGStrategy.manage_positions`
(lines 197-207), run after the breakeven block: poll the stop order
(`pos['sl_order_id']`, a plain dict access) — if `FILLED`, cancel the target
order and set `CLOSED_SL`; then poll the target order unconditionally — if
`FILLED`, cancel the stop order and set `CLOSED_TARGET`. -/
def fill_checks (pos1 : Position) (inp : CycleInput) :
    Except String (Position × List Event) := do
  let _slId ← getField pos1.sl_order_id ("sl_order_id")
  let r2 ←
    if inp.slStatus = OrderStatus.FILLED then do
      let tgtId ← getField pos1.target_order_id ("target_order_id")
      Except.ok ({ pos1 with status := PosStatus.CLOSED_SL },
        [Event.cancel tgtId, Event.setStatus PosStatus.CLOSED_SL])
    else Except.ok (pos1, ([] : List Event))
  let pos2 := r2.1
  let _tgtId ← getField pos2.target_order_id ("target_order_id")
  let r3 ←
    if inp.tgtStatus = OrderStatus.FILLED then do
      let slId2 ← getField pos2.sl_order_id ("sl_order_id")
      Except.ok ({ pos2 with status := PosStatus.CLOSED_TARGET },
        [Event.cancel slId2, Event.setStatus PosStatus.CLOSED_TARGET])
    else Except.ok (pos2, ([] : List Event))
  Except.ok (r3.1, r2.2 ++ r3.2)

/-- The body of `FVGStrategy.manage_positions` (lines 176-207) for one tracked
position: when `OPEN`, run the breakeven block and then the fill checks. -/
def manage_step (pos : Position) (inp : CycleInput) :
    Except String (Position × List Event) :=
  if pos.status = PosStatus.OPEN then do
    let r1 ← breakeven_check pos inp
    let r2 ← fill_checks r1.1 inp
    Except.ok (r2.1, r1.2 ++ r2.2)
  else Except.ok (pos, [])

/-- One full control-loop cycle of `FVGStrategy.run` as seen by a single
tracked position: `check_open_orders` then `manage_positions`
(`analyze_and_trade` skips symbols already present in the registry, so it
never touches an existing position). -/
def cycle_step (pos : Position) (inp : CycleInput) :
    Except String (Position × List Event) := do
  let c := check_open_orders_step pos inp
  let m ← manage_step c.1 inp
  Except.ok (m.1, c.2 ++ m.2)

/-- Iterated control-loop cycles for one position. An uncaught exception in a
cycle terminates the loop (`FVGStrategy.run` has no handler), so the trace
stops there. -/
def pos_loop : Position → List CycleInput → Position × List Event
  | pos, [] => (pos, [])
  | pos, inp :: rest =>
    match cycle_step pos inp with
    | Except.error _ => (pos, [])
    | Except.ok (p1, e1) =>
      let r := pos_loop p1 rest
      (r.1, e1 ++ r.2)

/-- Number of breakeven adjustments recorded in a trace (each firing of the
breakeven block logs exactly one `Moved SL to breakeven` line). -/
def countBE : List Event → Nat
  | [] => 0
  | Event.breakevenLog :: rest => countBE rest + 1
  | _ :: rest => countBE rest

/-- The quote-side trigger of the breakeven block: the price has moved at
least half the distance from entry to target in the favorable direction
(the outer `if` of lines 181 and 189). -/
def favorable (pos : Position) (q : ℚ) : Bool :=
  match pos.type with
  | PosType.LONG => pos.entry_price + (pos.target - pos.entry_price) / 2 ≤ q
  | PosType.SHORT => q ≤ pos.entry_price - (pos.entry_price - pos.target) / 2

/-- The stop-loss guard of the breakeven block: the stop has not yet been
moved to the entry price (the inner `if` of lines 182 and 190, a strict
inequality in the source). -/
def slArmed (pos : Position) : Bool :=
  match pos.type with
  | PosType.LONG => pos.stop_loss < pos.entry_price
  | PosType.SHORT => pos.entry_price < pos.stop_loss

/-- Result position of `manage_step` when it returns normally (the input
position when it raises). -/
def managePos (pos : Position) (inp : CycleInput) : Position :=
  match manage_step pos inp with
  | Except.ok r => r.1
  | Except.error _ => pos

/-- Event trace of `manage_step` when it returns normally. -/
def manageEvents (pos : Position) (inp : CycleInput) : List Event :=
  match manage_step pos inp with
  | Except.ok r => r.2
  | Except.error _ => []

/-- Whether a per-position step raised an uncaught exception. -/
def isError : Except String (Position × List Event) → Bool
  | Except.error _ => true
  | Except.ok _ => false

/-! The registry-level control loop of `FVGStrategy.run` (lines 28-41):
`check_open_orders`, `analyze_and_trade`, `manage_positions` over the
`self.positions` dict (an insertion-ordered association list), once per
period. `display_table` is read-only and omitted. -/

/-- The `self.positions` dict: insertion-ordered, keyed by symbol. -/
abbrev Registry := List (String × Position)

/-- Python `symbol in self.positions`. -/
def hasPos (ps : Registry) (sym : String) : Bool :=
  ps.any (fun e => e.1 = sym)

/-- `FVGStrategy.check_open_orders` (lines 43-49) over the whole registry. -/
def check_open_orders (orc : String → CycleInput) :
    Registry → Registry × List (String × Event)
  | [] => ([], [])
  | (sym, pos) :: rest =>
    let r := check_open_orders_step pos (orc sym)
    let rr := check_open_orders orc rest
    ((sym, r.1) :: rr.1, r.2.map (fun e => (sym, e)) ++ rr.2)

/-- `FVGStrategy._place_order` (lines 146-174): place the entry stop order at
the signal's entry price; on an `'ok'` reply, insert a fresh `PENDING_ENTRY`
position for the symbol (on failure only the error is logged and no position
is created). -/
def place_order_entry (sym : String) (sig : Signal) (resp : PlaceResp)
    (ps : Registry) : Registry × List (String × Event) :=
  if resp.status = "ok" then
    (ps ++ [(sym,
      { order_id := resp.order_id, entry_price := sig.entry_price,
        stop_loss := sig.stop_loss, target := sig.target,
        status := PosStatus.PENDING_ENTRY, type := sig.type })],
     [(sym, Event.placeEntryOrder sig.entry_price)])
  else (ps, [(sym, Event.placeEntryOrder sig.entry_price)])

/-- The per-symbol body of `FVGStrategy.analyze_and_trade` (lines 87-104):
a symbol already present in `self.positions` is skipped (`continue`);
otherwise, when the (externally computed) analysis produces an entry signal,
`_place_order` runs. A per-symbol exception is caught and logged
(lines 103-104), so this step never raises. -/
def analyze_symbol (ps : Registry) (sym : String) (orc : String → CycleInput) :
    Registry × List (String × Event) :=
  if hasPos ps sym then (ps, [])
  else
    match (orc sym).signal with
    | none => (ps, [])
    | some sig => place_order_entry sym sig (orc sym).signalResp ps

/-- `FVGStrategy.analyze_and_trade` over the configured symbol list. -/
def analyze_and_trade (syms : List String) (ps : Registry)
    (orc : String → CycleInput) : Registry × List (String × Event) :=
  match syms with
  | [] => (ps, [])
  | s :: rest =>
    let r := analyze_symbol ps s orc
    let r2 := analyze_and_trade rest r.1 orc
    (r2.1, r.2 ++ r2.2)

/-- `FVGStrategy.manage_positions` (lines 176-207) over the whole registry;
an uncaught `KeyError` aborts the whole method (there is no handler). -/
def manage_positions (orc : String → CycleInput) :
    Registry → Except String (Registry × List (String × Event))
  | [] => Except.ok ([], [])
  | (sym, pos) :: rest => do
    let r ← manage_step pos (orc sym)
    let rr ← manage_positions orc rest
    Except.ok ((sym, r.1) :: rr.1, r.2.map (fun e => (sym, e)) ++ rr.2)

/-- One iteration of the `while True` body of `FVGStrategy.run`
(lines 30-41). -/
def run_cycle (syms : List String) (ps : Registry)
    (orc : String → CycleInput) :
    Except String (Registry × List (String × Event)) := do
  let c := check_open_orders orc ps
  let a := analyze_and_trade syms c.1 orc
  let m ← manage_positions orc a.1
  Except.ok (m.1, c.2 ++ a.2 ++ m.2)

/-- The period-aligned loop of `FVGStrategy.run`: iterate cycles; there is no
`try`/`except` in `run`, so the first uncaught exception propagates and
terminates the loop. -/
def run_loop (syms : List String) :
    Registry → List (String → CycleInput) →
      Except String (Registry × List (String × Event))
  | ps, [] => Except.ok (ps, [])
  | ps, orc :: rest => do
    let r ← run_cycle syms ps orc
    let rr ← run_loop syms r.1 rest
    Except.ok (rr.1, r.2 ++ rr.2)

/-! The event-driven control loop of `run_strategy`
(`src/strategy_manager.py` lines 67-80). -/

/-- Outcome of processing one dequeued tick in the `while True` body of
`run_strategy`: normal processing, an exception raised by the body (caught
by the `except Exception` arm), or a `KeyboardInterrupt`. -/
inductive TickOutcome
  | ok
  | raises (msg : String)
  | interrupt
deriving DecidableEq

/-- The log line written by the `except Exception` arm (line 80). -/
def loopErrMsg (m : String) : String := "Error in strategy loop: " ++ m

/-- The log line an outcome contributes, if any. -/
def errOf : TickOutcome → Option String
  | TickOutcome.raises m => some (loopErrMsg m)
  | _ => none

/-- The `while True` loop of `run_strategy` (lines 67-80): each iteration's
exception is caught and logged and the loop continues; `KeyboardInterrupt`
breaks. Returns the log-channel contents and the number of iterations
executed. -/
def event_loop : List String → List TickOutcome → List String × Nat
  | logs, [] => (logs, 0)
  | logs, TickOutcome.interrupt :: _ => (logs, 1)
  | logs, TickOutcome.ok :: rest =>
    let r := event_loop logs rest
    (r.1, r.2 + 1)
  | logs, TickOutcome.raises m :: rest =>
    let r := event_loop (logs ++ [loopErrMsg m]) rest
    (r.1, r.2 + 1)

/-! `StrategyManager` (`src/strategy_manager.py` lines 84-126): process
supervision. The world tracks every process ever spawned (`procs`, liveness
by spawn index) and the manager's `self.process` handle (`held`). -/

/-- Spawn history (liveness flag per spawned process) plus the manager's
current handle. -/
structure World where
  procs : List Bool
  held : Option Nat
deriving DecidableEq

/-- The state right after `StrategyManager.__init__`: no process spawned,
`self.process = None`. -/
def World.start : World := { procs := [], held := none }

/-- `process.is_alive()` for spawn index `i`. -/
def isAlive (w : World) (i : Nat) : Bool := (w.procs[i]?).getD false

/-- `self.process and self.process.is_alive()`. -/
def heldAlive (w : World) : Bool :=
  match w.held with
  | some i => isAlive w i
  | none => false

/-- `multiprocessing.Process(...).start()`: a fresh, alive process; the
manager's handle is replaced by it. -/
def spawnProc (w : World) : World :=
  { procs := w.procs ++ [true], held := some w.procs.length }

/-- `StrategyManager.start` (lines 91-107): if the held process is alive,
return "already running" without touching anything; otherwise fail fast when
the configuration file is missing, else spawn and hold a fresh process. -/
def startOp (w : World) (name : String) (configOk : Bool) : World × String :=
  if heldAlive w then (w, "Strategy is already running.")
  else if configOk then
    (spawnProc w, "Strategy '" ++ name ++ "' started.")
  else
    (w, "Error: Configuration file for strategy '" ++ name ++ "' not found.")

/-- `StrategyManager.stop` (lines 109-115): no-op when no live process is
held; otherwise terminate (and join) the held process. -/
def stopOp (w : World) : World × String :=
  match w.held with
  | some i =>
    if isAlive w i then
      ({ w with procs := w.procs.set i false }, "Strategy stopped.")
    else (w, "Strategy is not running.")
  | none => (w, "Strategy is not running.")

/-- A child process exiting on its own (e.g. `run_strategy` returning). -/
def childExitOp (w : World) (i : Nat) : World :=
  { w with procs := w.procs.set i false }

/-- Operations observable on one `StrategyManager` instance. -/
inductive MgrOp
  | start (name : String) (configOk : Bool)
  | stop
  | childExit (i : Nat)

/-- Run a sequence of manager operations from a world state. -/
def mgrRun : World → List MgrOp → World
  | w, [] => w
  | w, MgrOp.start n c :: rest => mgrRun (startOp w n c).1 rest
  | w, MgrOp.stop :: rest => mgrRun (stopOp w).1 rest
  | w, MgrOp.childExit i :: rest => mgrRun (childExitOp w i) rest

/-! `StrategyManager.get_logs` (lines 122-126) and its log queue. -/

/-- The `while not self.log_queue.empty(): logs.append(self.log_queue.get())`
loop, accumulating into `logs`. -/
def get_logs_loop : List String → List String → List String × List String
  | logs, [] => (logs, [])
  | logs, m :: rest => get_logs_loop (logs ++ [m]) rest

/-- `StrategyManager.get_logs`: drain the queue, returning the drained
messages and the queue contents afterwards. -/
def get_logs (q : List String) : List String × List String :=
  get_logs_loop [] q

/-- Interleaved producer/consumer operations on the log queue:
`put` by the strategy process, `drain` = a `get_logs` call. -/
inductive LogOp
  | put (m : String)
  | drain
deriving DecidableEq

/-- Run log-queue operations; returns the final queue contents and the
concatenation of everything the `get_logs` calls returned, in order. -/
def runLog : List String → List LogOp → List String × List String
  | q, [] => (q, [])
  | q, LogOp.put m :: rest => runLog (q ++ [m]) rest
  | q, LogOp.drain :: rest =>
    let d := get_logs q
    let r := runLog d.2 rest
    (r.1, d.1 ++ r.2)

/-- Messages produced over a log-op sequence, in order. -/
def putsOf : List LogOp → List String
  | [] => []
  | LogOp.put m :: rest => m :: putsOf rest
  | LogOp.drain :: rest => putsOf rest

/-! The dispatcher and the consumer side of the `run_strategy` loop
(`src/strategy_manager.py` lines 45-76). -/

/-- A tick payload as the consumer inspects it: dict keys `symbol`,
`last_price`, `ltp` (each possibly absent). -/
structure Tick where
  symbol : Option String := none
  last_price : Option ℚ := none
  ltp : Option ℚ := none
deriving DecidableEq

/-- An entry of the dispatch channel: either a whole batch or one tick. -/
inductive QEntry
  | batchE (l : List Tick)
  | singleE (t : Tick)
deriving DecidableEq

/-- The argument `on_ticks` receives: a tick batch (list) or one tick
(dict). -/
inductive TicksArg
  | listArg (l : List Tick)
  | dictArg (t : Tick)
deriving DecidableEq

/-- Modelled from the spec: the `DataDispatcher` class (module `dispatcher`)
is not part of this repository's sources here; per the spec (§4.2),
`dispatch(events)` accepts a single event or an ordered batch and forwards
every element, preserving arrival order, to the registered main queue. -/
def dispatch (q : List QEntry) (arg : TicksArg) : List QEntry :=
  match arg with
  | TicksArg.listArg l => q ++ l.map QEntry.singleE
  | TicksArg.dictArg t => q ++ [QEntry.singleE t]

/-- The `on_ticks` websocket callback of `run_strategy` (lines 48-53):
a list is dispatched as a batch; a single dict is dispatched only when it
has a `symbol` key. -/
def on_ticks (q : List QEntry) (arg : TicksArg) : List QEntry :=
  match arg with
  | TicksArg.listArg l => dispatch q (TicksArg.listArg l)
  | TicksArg.dictArg t =>
    if t.symbol.isSome then dispatch q (TicksArg.dictArg t) else q

/-- The consumer body of the `run_strategy` loop (lines 69-76) for one
dequeued entry: from a list entry only element `[0]` is taken; the payload
reaches `strategy.on_ticks_update` only when it has a `last_price` or `ltp`
key. Returns the payload passed to the strategy, if any. -/
def consume_entry : QEntry → Option Tick
  | QEntry.batchE l =>
    match l.head? with
    | some t => if t.last_price.isSome || t.ltp.isSome then some t else none
    | none => none
  | QEntry.singleE t =>
    if t.last_price.isSome || t.ltp.isSome then some t else none

/-- Drain the dispatch channel in FIFO order through the consumer loop. -/
def drainQueue (q : List QEntry) : List Tick :=
  q.filterMap consume_entry

/-! Concrete constants used by counterexamples and witnesses. -/

/-- An `'ok'` broker reply with the given order id. -/
def okR (n : Nat) : PlaceResp := { status := "ok", order_id := n }

/-- A quiet cycle: nothing filled, quote far below any threshold. -/
def quietInp : CycleInput :=
  { entryStatus := OrderStatus.PENDING, entryPlaceSl := okR 21,
    entryPlaceTgt := okR 22, last_price := 90, slPlace := okR 31,
    tgtPlace := okR 32, slStatus := OrderStatus.PENDING,
    tgtStatus := OrderStatus.PENDING, signal := none, signalResp := okR 41 }

/-- An `OPEN` LONG position whose stop already sits at entry, both exit-order
ids recorded. -/
def c1pos : Position :=
  { order_id := 1, entry_price := 100, stop_loss := 100, target := 110,
    status := PosStatus.OPEN, type := PosType.LONG,
    sl_order_id := some 11, target_order_id := some 12 }

/-- A cycle in which both the stop order and the target order poll
`FILLED`. -/
def c1inp : CycleInput :=
  { quietInp with
    slStatus := OrderStatus.FILLED, tgtStatus := OrderStatus.FILLED }

/-- A `PENDING_ENTRY` LONG position (entry 100, stop 95, target 110). -/
def c3pos : Position :=
  { order_id := 1, entry_price := 100, stop_loss := 95, target := 110,
    status := PosStatus.PENDING_ENTRY, type := PosType.LONG }

/-- A cycle in which the entry order polls `FILLED`. -/
def c3inp : CycleInput := { quietInp with entryStatus := OrderStatus.FILLED }

/-- An `OPEN` LONG position with the stop parked above entry (entry 100,
stop 105, target 110): not equal to entry, yet the source's breakeven guard
`stop_loss < entry_price` is false. -/
def c6pos : Position :=
  { order_id := 1, entry_price := 100, stop_loss := 105, target := 110,
    status := PosStatus.OPEN, type := PosType.LONG,
    sl_order_id := some 11, target_order_id := some 12 }

/-- A quiet cycle with the quote at 106, beyond the LONG midpoint
`100 + (110 - 100)/2 = 105`. -/
def c6inp : CycleInput := { quietInp with last_price := 106 }

/-- The spec's concrete breakeven scenario: `OPEN` LONG, entry 100,
stop 95, target 110. -/
def w6pos : Position :=
  { order_id := 1, entry_price := 100, stop_loss := 95, target := 110,
    status := PosStatus.OPEN, type := PosType.LONG,
    sl_order_id := some 11, target_order_id := some 12 }

/-- An `OPEN` position with no exit-order id recorded (both placements
failed). -/
def c9pos : Position :=
  { order_id := 1, entry_price := 100, stop_loss := 95, target := 110,
    status := PosStatus.OPEN, type := PosType.LONG }

/-- A registry holding one `OPEN` position whose exit-order ids were never
recorded. -/
def c4reg : Registry := [("NSE:RELIANCE", c9pos)]

/-- A constant per-symbol oracle for registry-level runs. -/
def c4orc : String → CycleInput := fun _ => quietInp

/-- A closed LONG position (for witnesses about terminal states). -/
def wClosedPos : Position :=
  { order_id := 1, entry_price := 100, stop_loss := 95, target := 110,
    status := PosStatus.CLOSED_SL, type := PosType.LONG,
    sl_order_id := some 11, target_order_id := some 12 }

/-- The supervision invariant: every live spawned process is the one the
manager currently holds. -/
def MgrInv (w : World) : Prop :=
  ∀ i, isAlive w i = true → w.held = some i

/-- No entry-order placement occurs in a per-position event list (entry
orders are placed only by `analyze_and_trade`). -/
def entryFree (evs : List Event) : Prop :=
  ∀ x, Event.placeEntryOrder x ∉ evs

/-- A registry already holding a (closed) position for symbol `NSE:X`. -/
def wReg : Registry := [("NSE:X", wClosedPos)]

/-- A symbol universe containing `NSE:X`. -/
def wSyms : List String := ["NSE:X"]

/-- Concrete ticks with a price field, for the dispatcher scenario. -/
def tickA : Tick := { symbol := some ("NSE:A"), last_price := some 101 }

/-- Second concrete tick. -/
def tickB : Tick := { symbol := some ("NSE:B"), last_price := some 102 }

/-- Third concrete tick, carrying `ltp` instead of `last_price`. -/
def tickC : Tick := { symbol := some ("NSE:C"), ltp := some 103 }

/-! Helper lemmas about the per-position step functions. -/

@[simp] theorem place_exit_orders_events (p : Position) (a b : PlaceResp) :
    (place_exit_orders p a b).2 =
      [Event.placeStop p.stop_loss, Event.placeLimit p.target] := by
  simp only [place_exit_orders]

@[simp] theorem place_exit_orders_stop_loss (p : Position) (a b : PlaceResp) :
    (place_exit_orders p a b).1.stop_loss = p.stop_loss := by
  simp only [place_exit_orders]
  split <;> split <;> rfl

@[simp] theorem place_exit_orders_entry_price (p : Position) (a b : PlaceResp) :
    (place_exit_orders p a b).1.entry_price = p.entry_price := by
  simp only [place_exit_orders]
  split <;> split <;> rfl

@[simp] theorem place_exit_orders_target (p : Position) (a b : PlaceResp) :
    (place_exit_orders p a b).1.target = p.target := by
  simp only [place_exit_orders]
  split <;> split <;> rfl

@[simp] theorem place_exit_orders_type (p : Position) (a b : PlaceResp) :
    (place_exit_orders p a b).1.type = p.type := by
  simp only [place_exit_orders]
  split <;> split <;> rfl

@[simp] theorem place_exit_orders_status (p : Position) (a b : PlaceResp) :
    (place_exit_orders p a b).1.status = p.status := by
  simp only [place_exit_orders]
  split <;> split <;> rfl

theorem place_exit_orders_sl_isSome (p : Position) (a b : PlaceResp)
    (h : p.sl_order_id.isSome = true) :
    (place_exit_orders p a b).1.sl_order_id.isSome = true := by
  simp only [place_exit_orders]
  split <;> split <;> simpa

theorem place_exit_orders_tgt_isSome (p : Position) (a b : PlaceResp)
    (h : p.target_order_id.isSome = true) :
    (place_exit_orders p a b).1.target_order_id.isSome = true := by
  simp only [place_exit_orders]
  split <;> split <;> simpa

@[simp] theorem countBE_append (l1 l2 : List Event) :
    countBE (l1 ++ l2) = countBE l1 + countBE l2 := by
  induction l1 with
  | nil => simp [countBE]
  | cons e rest ih =>
    cases e <;> simp [countBE, ih] <;> omega

theorem countBE_eq_zero_of_not_mem (l : List Event)
    (h : Event.breakevenLog ∉ l) : countBE l = 0 := by
  induction l with
  | nil => rfl
  | cons e rest ih =>
    cases e <;> simp_all [countBE]

@[simp] theorem except_ok_bind {α β : Type} (a : α) (f : α → Except String β) :
    (Except.ok a >>= f) = f a := rfl

@[simp] theorem except_error_bind {α β : Type} (e : String)
    (f : α → Except String β) :
    ((Except.error e : Except String α) >>= f) = Except.error e := rfl

@[simp] theorem getField_some (v : Nat) (k : String) :
    getField (some v) k = Except.ok v := rfl

@[simp] theorem getField_none (k : String) :
    getField none k = Except.error ("KeyError: " ++ k) := rfl

theorem breakeven_no_fire (pos : Position) (inp : CycleInput)
    (h : ¬(favorable pos inp.last_price = true ∧ slArmed pos = true)) :
    breakeven_check pos inp = Except.ok (pos, []) := by
  cases htype : pos.type <;>
    simp only [breakeven_check, htype] <;>
    split <;> try rfl
  · rename_i hq
    rw [if_neg]
    intro hsl
    exact h ⟨by simp [favorable, htype, hq], by simp [slArmed, htype, hsl]⟩
  · rename_i hq
    rw [if_neg]
    intro hsl
    exact h ⟨by simp [favorable, htype, hq], by simp [slArmed, htype, hsl]⟩

theorem breakeven_fire (pos : Position) (inp : CycleInput) (a b : Nat)
    (hfav : favorable pos inp.last_price = true) (harm : slArmed pos = true)
    (ha : pos.sl_order_id = some a) (hb : pos.target_order_id = some b) :
    breakeven_check pos inp = Except.ok
      ((place_exit_orders { pos with stop_loss := pos.entry_price }
          inp.slPlace inp.tgtPlace).1,
       [Event.cancel a, Event.cancel b, Event.placeStop pos.entry_price,
        Event.placeLimit pos.target, Event.breakevenLog]) := by
  cases htype : pos.type <;>
    simp only [favorable, slArmed, htype, decide_eq_true_eq] at hfav harm <;>
    simp [breakeven_check, htype, hfav, harm, ha, hb]

theorem breakeven_missing_id (pos : Position) (inp : CycleInput)
    (h : pos.sl_order_id = none ∨ pos.target_order_id = none) :
    breakeven_check pos inp = Except.ok (pos, []) ∨
      ∃ e, breakeven_check pos inp = Except.error e := by
  by_cases hc : favorable pos inp.last_price = true ∧ slArmed pos = true
  · right
    obtain ⟨hfav, harm⟩ := hc
    cases htype : pos.type <;>
      simp only [favorable, slArmed, htype, decide_eq_true_eq] at hfav harm <;>
      [skip; skip] <;>
    · cases hsl : pos.sl_order_id with
      | none =>
        exact ⟨("KeyError: sl_order_id"),
          by simp [breakeven_check, htype, hfav, harm, hsl]⟩
      | some a =>
        cases htgt : pos.target_order_id with
        | none =>
          exact ⟨("KeyError: target_order_id"),
            by simp [breakeven_check, htype, hfav, harm, hsl, htgt]⟩
        | some b => simp [hsl, htgt] at h
  · exact Or.inl (breakeven_no_fire pos inp hc)

theorem fill_checks_missing_id (pos1 : Position) (inp : CycleInput)
    (h : pos1.sl_order_id = none ∨ pos1.target_order_id = none) :
    ∃ e, fill_checks pos1 inp = Except.error e := by
  cases hsl : pos1.sl_order_id with
  | none => exact ⟨("KeyError: sl_order_id"), by simp [fill_checks, hsl]⟩
  | some a =>
    have htgt : pos1.target_order_id = none := by
      rcases h with h | h
    -- the stop-order id is present, so the target-order id must be missing
      · rw [hsl] at h; exact absurd h (by simp)
      · exact h
    by_cases hs : inp.slStatus = OrderStatus.FILLED
    · exact ⟨("KeyError: target_order_id"),
        by simp [fill_checks, hsl, htgt, hs]⟩
    · exact ⟨("KeyError: target_order_id"),
        by simp [fill_checks, hsl, htgt, hs]⟩

theorem fill_checks_no_fill (pos1 : Position) (inp : CycleInput) (a b : Nat)
    (ha : pos1.sl_order_id = some a) (hb : pos1.target_order_id = some b)
    (hs : ¬inp.slStatus = OrderStatus.FILLED)
    (ht : ¬inp.tgtStatus = OrderStatus.FILLED) :
    fill_checks pos1 inp = Except.ok (pos1, []) := by
  simp [fill_checks, ha, hb, hs, ht]

theorem fill_checks_sl_filled (pos1 : Position) (inp : CycleInput) (a b : Nat)
    (ha : pos1.sl_order_id = some a) (hb : pos1.target_order_id = some b)
    (hs : inp.slStatus = OrderStatus.FILLED)
    (ht : ¬inp.tgtStatus = OrderStatus.FILLED) :
    fill_checks pos1 inp = Except.ok
      ({ pos1 with status := PosStatus.CLOSED_SL },
       [Event.cancel b, Event.setStatus PosStatus.CLOSED_SL]) := by
  simp [fill_checks, ha, hb, hs, ht]

theorem fill_checks_tgt_filled (pos1 : Position) (inp : CycleInput) (a b : Nat)
    (ha : pos1.sl_order_id = some a) (hb : pos1.target_order_id = some b)
    (hs : ¬inp.slStatus = OrderStatus.FILLED)
    (ht : inp.tgtStatus = OrderStatus.FILLED) :
    fill_checks pos1 inp = Except.ok
      ({ pos1 with status := PosStatus.CLOSED_TARGET },
       [Event.cancel a, Event.setStatus PosStatus.CLOSED_TARGET]) := by
  simp [fill_checks, ha, hb, hs, ht]

theorem fill_checks_both_filled (pos1 : Position) (inp : CycleInput) (a b : Nat)
    (ha : pos1.sl_order_id = some a) (hb : pos1.target_order_id = some b)
    (hs : inp.slStatus = OrderStatus.FILLED)
    (ht : inp.tgtStatus = OrderStatus.FILLED) :
    fill_checks pos1 inp = Except.ok
      ({ pos1 with status := PosStatus.CLOSED_TARGET },
       [Event.cancel b, Event.setStatus PosStatus.CLOSED_SL,
        Event.cancel a, Event.setStatus PosStatus.CLOSED_TARGET]) := by
  simp [fill_checks, ha, hb, hs, ht]

theorem manage_step_not_open (pos : Position) (inp : CycleInput)
    (h : ¬pos.status = PosStatus.OPEN) :
    manage_step pos inp = Except.ok (pos, []) := by
  simp [manage_step, h]

theorem check_step_skip (pos : Position) (inp : CycleInput)
    (h : ¬pos.status = PosStatus.PENDING_ENTRY ∨
      ¬inp.entryStatus = OrderStatus.FILLED) :
    check_open_orders_step pos inp = (pos, []) := by
  rcases h with h | h
  · simp [check_open_orders_step, h]
  · by_cases hp : pos.status = PosStatus.PENDING_ENTRY <;>
      simp [check_open_orders_step, hp, h]

theorem check_step_fill (pos : Position) (inp : CycleInput)
    (hP : pos.status = PosStatus.PENDING_ENTRY)
    (hF : inp.entryStatus = OrderStatus.FILLED) :
    check_open_orders_step pos inp =
      ((place_exit_orders { pos with status := PosStatus.OPEN }
          inp.entryPlaceSl inp.entryPlaceTgt).1,
       [Event.setStatus PosStatus.OPEN, Event.placeStop pos.stop_loss,
        Event.placeLimit pos.target]) := by
  simp [check_open_orders_step, hP, hF]

theorem breakeven_ok_cases (pos : Position) (inp : CycleInput) (p' : Position)
    (evs : List Event)
    (h : breakeven_check pos inp = Except.ok (p', evs)) :
    (p' = pos ∧ evs = []) ∨
    (slArmed pos = true ∧ p'.stop_loss = pos.entry_price ∧
      p'.entry_price = pos.entry_price ∧ p'.target = pos.target ∧
      p'.type = pos.type ∧ p'.status = pos.status ∧ countBE evs = 1) := by
  by_cases hc : favorable pos inp.last_price = true ∧ slArmed pos = true
  · cases hsl : pos.sl_order_id with
    | none =>
      rcases breakeven_missing_id pos inp (Or.inl hsl) with hbe | ⟨e, hbe⟩
      · rw [hbe] at h
        simp only [Except.ok.injEq, Prod.mk.injEq] at h
        exact Or.inl ⟨h.1.symm, h.2.symm⟩
      · rw [hbe] at h; exact absurd h (by simp)
    | some a =>
      cases htgt : pos.target_order_id with
      | none =>
        rcases breakeven_missing_id pos inp (Or.inr htgt) with hbe | ⟨e, hbe⟩
        · rw [hbe] at h
          simp only [Except.ok.injEq, Prod.mk.injEq] at h
          exact Or.inl ⟨h.1.symm, h.2.symm⟩
        · rw [hbe] at h; exact absurd h (by simp)
      | some b =>
        rw [breakeven_fire pos inp a b hc.1 hc.2 hsl htgt] at h
        simp only [Except.ok.injEq, Prod.mk.injEq] at h
        obtain ⟨hp, he⟩ := h
        right
        refine ⟨hc.2, ?_, ?_, ?_, ?_, ?_, ?_⟩ <;>
          simp [← hp, ← he, countBE]
  · rw [breakeven_no_fire pos inp hc] at h
    simp only [Except.ok.injEq, Prod.mk.injEq] at h
    exact Or.inl ⟨h.1.symm, h.2.symm⟩

theorem fill_checks_fields (pos1 : Position) (inp : CycleInput) (p' : Position)
    (evs : List Event) (h : fill_checks pos1 inp = Except.ok (p', evs)) :
    p'.stop_loss = pos1.stop_loss ∧ p'.entry_price = pos1.entry_price ∧
    p'.target = pos1.target ∧ p'.type = pos1.type ∧ countBE evs = 0 := by
  cases hsl : pos1.sl_order_id with
  | none =>
    rcases fill_checks_missing_id pos1 inp (Or.inl hsl) with ⟨e, he⟩
    rw [he] at h; exact absurd h (by simp)
  | some a =>
    cases htgt : pos1.target_order_id with
    | none =>
      rcases fill_checks_missing_id pos1 inp (Or.inr htgt) with ⟨e, he⟩
      rw [he] at h; exact absurd h (by simp)
    | some b =>
      by_cases hs : inp.slStatus = OrderStatus.FILLED <;>
        by_cases ht : inp.tgtStatus = OrderStatus.FILLED
      · rw [fill_checks_both_filled pos1 inp a b hsl htgt hs ht] at h
        simp only [Except.ok.injEq, Prod.mk.injEq] at h
        obtain ⟨hp, he⟩ := h
        simp [← hp, ← he, countBE]
      · rw [fill_checks_sl_filled pos1 inp a b hsl htgt hs ht] at h
        simp only [Except.ok.injEq, Prod.mk.injEq] at h
        obtain ⟨hp, he⟩ := h
        simp [← hp, ← he, countBE]
      · rw [fill_checks_tgt_filled pos1 inp a b hsl htgt hs ht] at h
        simp only [Except.ok.injEq, Prod.mk.injEq] at h
        obtain ⟨hp, he⟩ := h
        simp [← hp, ← he, countBE]
      · rw [fill_checks_no_fill pos1 inp a b hsl htgt hs ht] at h
        simp only [Except.ok.injEq, Prod.mk.injEq] at h
        obtain ⟨hp, he⟩ := h
        simp [← hp, ← he, countBE]

theorem manage_step_ok_spec (pos : Position) (inp : CycleInput) (p' : Position)
    (evs : List Event) (h : manage_step pos inp = Except.ok (p', evs)) :
    p'.entry_price = pos.entry_price ∧ p'.type = pos.type ∧
    countBE evs ≤ 1 ∧
    (countBE evs = 0 → p'.stop_loss = pos.stop_loss) ∧
    (¬countBE evs = 0 → slArmed pos = true ∧ p'.stop_loss = p'.entry_price) := by
  by_cases hO : pos.status = PosStatus.OPEN
  · rw [manage_step, if_pos hO] at h
    cases hbe : breakeven_check pos inp with
    | error e => rw [hbe] at h; exact absurd h (by simp)
    | ok r1 =>
      obtain ⟨q1, e1⟩ := r1
      rw [hbe] at h
      cases hfc : fill_checks q1 inp with
      | error e => rw [except_ok_bind] at h; rw [hfc] at h; exact absurd h (by simp)
      | ok r2 =>
        obtain ⟨q2, e2⟩ := r2
        rw [except_ok_bind] at h; rw [hfc] at h
        rw [except_ok_bind] at h
        simp only [Except.ok.injEq, Prod.mk.injEq] at h
        obtain ⟨hp, he⟩ := h
        obtain ⟨f1, f2, f3, f4, f5⟩ := fill_checks_fields q1 inp q2 e2 hfc
        rcases breakeven_ok_cases pos inp q1 e1 hbe with ⟨hq, hev⟩ |
          ⟨harm, b1, b2, b3, b4, b5, b6⟩
        · subst hq hev
          constructor
          · rw [← hp]; exact f2
          constructor
          · rw [← hp]; exact f4
          constructor
          · rw [← he]; simp [countBE, f5]
          constructor
          · intro _; rw [← hp]; exact f1
          · intro hne
            exfalso; apply hne
            rw [← he]; simp [countBE, f5]
        · constructor
          · rw [← hp, f2, b2]
          constructor
          · rw [← hp, f4, b4]
          constructor
          · rw [← he, countBE_append, b6, f5]
          constructor
          · intro h0; rw [← he, countBE_append, b6, f5] at h0; omega
          · intro _
            refine ⟨harm, ?_⟩
            rw [← hp, f1, b1, f2, b2]
  · rw [manage_step_not_open pos inp hO] at h
    simp only [Except.ok.injEq, Prod.mk.injEq] at h
    obtain ⟨hp, he⟩ := h
    subst hp he
    simp [countBE]

theorem check_step_fields (pos : Position) (inp : CycleInput) :
    (check_open_orders_step pos inp).1.entry_price = pos.entry_price ∧
    (check_open_orders_step pos inp).1.stop_loss = pos.stop_loss ∧
    (check_open_orders_step pos inp).1.target = pos.target ∧
    (check_open_orders_step pos inp).1.type = pos.type ∧
    countBE (check_open_orders_step pos inp).2 = 0 := by
  by_cases hP : pos.status = PosStatus.PENDING_ENTRY
  · by_cases hF : inp.entryStatus = OrderStatus.FILLED
    · rw [check_step_fill pos inp hP hF]
      simp [countBE]
    · rw [check_step_skip pos inp (Or.inr hF)]; simp [countBE]
  · rw [check_step_skip pos inp (Or.inl hP)]; simp [countBE]

theorem slArmed_congr (p q : Position) (h1 : p.stop_loss = q.stop_loss)
    (h2 : p.entry_price = q.entry_price) (h3 : p.type = q.type) :
    slArmed p = slArmed q := by
  simp [slArmed, h1, h2, h3]

theorem slArmed_false_of_breakeven (p : Position)
    (h : p.stop_loss = p.entry_price) : slArmed p = false := by
  cases ht : p.type <;> simp [slArmed, ht, h]

theorem cycle_step_ok_spec (pos : Position) (inp : CycleInput) (p1 : Position)
    (e1 : List Event) (h : cycle_step pos inp = Except.ok (p1, e1)) :
    p1.entry_price = pos.entry_price ∧ p1.type = pos.type ∧
    countBE e1 ≤ 1 ∧
    (countBE e1 = 0 → p1.stop_loss = pos.stop_loss) ∧
    (¬countBE e1 = 0 → slArmed pos = true ∧ p1.stop_loss = p1.entry_price) := by
  rw [cycle_step] at h
  cases hm : manage_step (check_open_orders_step pos inp).1 inp with
  | error e => rw [hm] at h; exact absurd h (by simp)
  | ok r =>
    obtain ⟨q, e2⟩ := r
    rw [hm, except_ok_bind] at h
    simp only [Except.ok.injEq, Prod.mk.injEq] at h
    obtain ⟨hp, he⟩ := h
    obtain ⟨c1, c2, c3, c4, c5⟩ := check_step_fields pos inp
    obtain ⟨m1, m2, m3, m4, m5⟩ :=
      manage_step_ok_spec (check_open_orders_step pos inp).1 inp q e2 hm
    have harmc : slArmed (check_open_orders_step pos inp).1 = slArmed pos :=
      slArmed_congr _ _ c2 c1 c4
    constructor
    · rw [← hp, m1, c1]
    constructor
    · rw [← hp, m2, c4]
    constructor
    · rw [← he, countBE_append, c5]; omega
    constructor
    · intro h0
      rw [← he, countBE_append, c5] at h0
      rw [← hp, m4 (by omega), c2]
    · intro hne
      rw [← he, countBE_append, c5] at hne
      have := m5 (by omega)
      exact ⟨by rw [← harmc]; exact this.1, by rw [← hp]; exact this.2⟩

theorem pos_loop_no_fire (inps : List CycleInput) (p : Position)
    (h : slArmed p = false) : countBE (pos_loop p inps).2 = 0 := by
  induction inps generalizing p with
  | nil => rfl
  | cons inp rest ih =>
    rw [pos_loop]
    cases hc : cycle_step p inp with
    | error e => rfl
    | ok r =>
      obtain ⟨p1, e1⟩ := r
      obtain ⟨s1, s2, s3, s4, s5⟩ := cycle_step_ok_spec p inp p1 e1 hc
      have hz : countBE e1 = 0 := by
        by_contra hne
        rw [(s5 hne).1] at h
        exact Bool.noConfusion h
      have harm1 : slArmed p1 = false := by
        rw [slArmed_congr p1 p (s4 hz) s1 s2]
        exact h
      simp [countBE_append, hz, ih p1 harm1]

/-- C5: for every Position and every sequence of control-loop cycles (any
quote prices, order statuses and broker replies), the breakeven adjustment
fires at most once over the whole trace: the event trace contains at most
one breakeven re-placement (each firing logs exactly one
`Moved SL to breakeven` line). -/
theorem breakeven_fires_at_most_once (pos : Position)
    (inps : List CycleInput) : countBE (pos_loop pos inps).2 ≤ 1 := by
  induction inps generalizing pos with
  | nil => simp [pos_loop, countBE]
  | cons inp rest ih =>
    rw [pos_loop]
    cases hc : cycle_step pos inp with
    | error e => simp [countBE]
    | ok r =>
      obtain ⟨p1, e1⟩ := r
      obtain ⟨s1, s2, s3, s4, s5⟩ := cycle_step_ok_spec pos inp p1 e1 hc
      by_cases hz : countBE e1 = 0
      · simp only [countBE_append, hz]
        simpa using ih p1
      · have harm1 : slArmed p1 = false :=
          slArmed_false_of_breakeven p1 (s5 hz).2
        have h0 := pos_loop_no_fire rest p1 harm1
        simp only [countBE_append, h0]
        omega

theorem cycle_step_closed (pos : Position) (inp : CycleInput)
    (h : pos.status = PosStatus.CLOSED_SL ∨
      pos.status = PosStatus.CLOSED_TARGET) :
    cycle_step pos inp = Except.ok (pos, []) := by
  have hP : ¬pos.status = PosStatus.PENDING_ENTRY := by
    rcases h with h | h <;> simp [h]
  have hO : ¬pos.status = PosStatus.OPEN := by
    rcases h with h | h <;> simp [h]
  simp [cycle_step, check_step_skip pos inp (Or.inl hP),
    manage_step_not_open pos inp hO]

theorem pos_loop_closed_fixed (inps : List CycleInput) (pos : Position)
    (h : pos.status = PosStatus.CLOSED_SL ∨
      pos.status = PosStatus.CLOSED_TARGET) :
    pos_loop pos inps = (pos, []) := by
  induction inps with
  | nil => rfl
  | cons inp rest ih =>
    rw [pos_loop, cycle_step_closed pos inp h]
    simp [ih]

/-- C1 (amended): a Position whose status is `CLOSED_SL` or `CLOSED_TARGET`
at the start of a cycle is never touched again — that cycle and every later
cycle leave it unchanged and emit no events. (Within the single cycle that
observes the fills this fails: see the counterexample, where the status set
to `CLOSED_SL` by the stop check is overwritten to `CLOSED_TARGET` by the
unconditional target check of the same cycle.) -/
theorem closed_status_terminal_across_cycles (pos : Position)
    (inp : CycleInput) (inps : List CycleInput)
    (h : pos.status = PosStatus.CLOSED_SL ∨
      pos.status = PosStatus.CLOSED_TARGET) :
    cycle_step pos inp = Except.ok (pos, []) ∧
      pos_loop pos inps = (pos, []) :=
  ⟨cycle_step_closed pos inp h, pos_loop_closed_fixed inps pos h⟩

/-- Witness for C1 (amended): a concrete `CLOSED_SL` position is left
untouched by a concrete cycle and by a two-cycle run. -/
theorem closed_status_terminal_across_cycles_witness :
    cycle_step wClosedPos quietInp = Except.ok (wClosedPos, []) ∧
      pos_loop wClosedPos [quietInp, c1inp] = (wClosedPos, []) :=
  closed_status_terminal_across_cycles wClosedPos quietInp [quietInp, c1inp]
    (Or.inl rfl)

/-- C1 (counterexample): one `manage_positions` cycle on an `OPEN` position
in which both exit orders poll `FILLED`: the stop check sets `CLOSED_SL`
(the `setStatus CLOSED_SL` event is in the trace), yet the subsequent target
check of the same cycle overwrites the status to `CLOSED_TARGET` — the
claim's "no subsequent check of that cycle sets the status to
CLOSED_TARGET" fails. -/
theorem closed_sl_overwritten_same_cycle :
    manage_step c1pos c1inp = Except.ok
      ({ c1pos with
          status := PosStatus.CLOSED_TARGET },
       [Event.cancel 12, Event.setStatus PosStatus.CLOSED_SL,
        Event.cancel 11, Event.setStatus PosStatus.CLOSED_TARGET]) ∧
    ({ c1pos with
        status := PosStatus.CLOSED_TARGET } : Position).status =
      PosStatus.CLOSED_TARGET ∧
    Event.setStatus PosStatus.CLOSED_SL ∈
      [Event.cancel 12, Event.setStatus PosStatus.CLOSED_SL,
       Event.cancel 11, Event.setStatus PosStatus.CLOSED_TARGET] := by
  refine ⟨?_, rfl, by simp⟩
  have hO : c1pos.status = PosStatus.OPEN := rfl
  rw [manage_step, if_pos hO]
  rw [breakeven_no_fire c1pos c1inp
    (by
      intro hcc
      have := hcc.2
      simp [slArmed, c1pos] at this)]
  rw [except_ok_bind]
  rw [fill_checks_both_filled c1pos c1inp 11 12 rfl rfl rfl rfl]
  simp

/-- C3 (amended): for a `PENDING_ENTRY` Position whose entry order polls
`FILLED`, the controller first sets the status to `OPEN` and then places
exactly one stop order at `stop_loss` followed by exactly one limit order at
`target` — the state change precedes the exit-order placements. -/
theorem entry_fill_opens_then_places_exits (pos : Position)
    (inp : CycleInput) (hP : pos.status = PosStatus.PENDING_ENTRY)
    (hF : inp.entryStatus = OrderStatus.FILLED) :
    check_open_orders_step pos inp =
      ((place_exit_orders { pos with status := PosStatus.OPEN }
          inp.entryPlaceSl inp.entryPlaceTgt).1,
       [Event.setStatus PosStatus.OPEN, Event.placeStop pos.stop_loss,
        Event.placeLimit pos.target]) ∧
    (check_open_orders_step pos inp).1.status = PosStatus.OPEN := by
  refine ⟨check_step_fill pos inp hP hF, ?_⟩
  rw [check_step_fill pos inp hP hF]
  simp

/-- Witness for C3 (amended): the concrete `PENDING_ENTRY` position. -/
theorem entry_fill_opens_then_places_exits_witness :
    (check_open_orders_step c3pos c3inp =
      ((place_exit_orders { c3pos with status := PosStatus.OPEN }
          c3inp.entryPlaceSl c3inp.entryPlaceTgt).1,
       [Event.setStatus PosStatus.OPEN, Event.placeStop c3pos.stop_loss,
        Event.placeLimit c3pos.target]) ∧
    (check_open_orders_step c3pos c3inp).1.status = PosStatus.OPEN) :=
  entry_fill_opens_then_places_exits c3pos c3inp rfl rfl

/-- C3 (counterexample): on entry fill the source sets
`pos['status'] = 'OPEN'` (line 48) before calling `place_exit_orders`
(line 49): the observable trace is `setStatus OPEN` first, then the two
placements — the claim's "the exit-order placements happen before the state
becomes OPEN" fails. -/
theorem status_open_precedes_exit_placements :
    check_open_orders_step c3pos c3inp =
      ({ c3pos with
          status := PosStatus.OPEN, sl_order_id := some 21,
          target_order_id := some 22 },
       [Event.setStatus PosStatus.OPEN, Event.placeStop 95,
        Event.placeLimit 110]) ∧
    (check_open_orders_step c3pos c3inp).2.head? =
      some (Event.setStatus PosStatus.OPEN) := by
  have h := check_step_fill c3pos c3inp rfl rfl
  constructor
  · rw [h]
    rfl
  · rw [h]
    rfl

theorem fill_checks_ok_of_ids (pos1 : Position) (inp : CycleInput) (a b : Nat)
    (ha : pos1.sl_order_id = some a) (hb : pos1.target_order_id = some b) :
    ∃ p' evs, fill_checks pos1 inp = Except.ok (p', evs) ∧
      Event.breakevenLog ∉ evs := by
  by_cases hs : inp.slStatus = OrderStatus.FILLED <;>
    by_cases ht : inp.tgtStatus = OrderStatus.FILLED
  · exact ⟨_, _, fill_checks_both_filled pos1 inp a b ha hb hs ht, by simp⟩
  · exact ⟨_, _, fill_checks_sl_filled pos1 inp a b ha hb hs ht, by simp⟩
  · exact ⟨_, _, fill_checks_tgt_filled pos1 inp a b ha hb hs ht, by simp⟩
  · exact ⟨_, _, fill_checks_no_fill pos1 inp a b ha hb hs ht, by simp⟩

/-- C6 (amended): for an `OPEN` Position with both exit-order ids recorded,
the breakeven adjustment fires in a `manage_positions` cycle exactly when the
quote has moved at least half the distance from entry to target in the
favorable direction AND the stop-loss is still strictly on the loss side of
entry (`stop_loss < entry_price` for LONG, `stop_loss > entry_price` for
SHORT — the source's guard is this strict inequality, not merely
"not already equal to entry"). When it fires, the cycle's trace begins with
the cancellation of both exit orders, a new stop placement at `entry_price`
and a new limit placement at the unchanged `target`, and the resulting
stop-loss equals the entry price; when it does not fire, the stop-loss is
unchanged and no breakeven re-placement occurs. -/
theorem breakeven_trigger_characterization (pos : Position)
    (inp : CycleInput) (a b : Nat) (hO : pos.status = PosStatus.OPEN)
    (ha : pos.sl_order_id = some a) (hb : pos.target_order_id = some b) :
    (favorable pos inp.last_price = true ∧ slArmed pos = true →
      (managePos pos inp).stop_loss = pos.entry_price ∧
      (managePos pos inp).target = pos.target ∧
      (manageEvents pos inp).take 5 =
        [Event.cancel a, Event.cancel b, Event.placeStop pos.entry_price,
         Event.placeLimit pos.target, Event.breakevenLog] ∧
      countBE (manageEvents pos inp) = 1) ∧
    (¬(favorable pos inp.last_price = true ∧ slArmed pos = true) →
      (managePos pos inp).stop_loss = pos.stop_loss ∧
      countBE (manageEvents pos inp) = 0) := by
  constructor
  · rintro ⟨hfav, harm⟩
    have hbe := breakeven_fire pos inp a b hfav harm ha hb
    have hsl' : (place_exit_orders { pos with stop_loss := pos.entry_price }
        inp.slPlace inp.tgtPlace).1.sl_order_id.isSome = true := by
      apply place_exit_orders_sl_isSome
      simp [ha]
    have htgt' : (place_exit_orders { pos with stop_loss := pos.entry_price }
        inp.slPlace inp.tgtPlace).1.target_order_id.isSome = true := by
      apply place_exit_orders_tgt_isSome
      simp [hb]
    obtain ⟨a', ha'⟩ := Option.isSome_iff_exists.mp hsl'
    obtain ⟨b', hb'⟩ := Option.isSome_iff_exists.mp htgt'
    obtain ⟨p', evs, hfc, hnb⟩ := fill_checks_ok_of_ids _ inp a' b' ha' hb'
    obtain ⟨f1, f2, f3, f4, f5⟩ := fill_checks_fields _ inp p' evs hfc
    have hm : manage_step pos inp = Except.ok (p',
        [Event.cancel a, Event.cancel b, Event.placeStop pos.entry_price,
         Event.placeLimit pos.target, Event.breakevenLog] ++ evs) := by
      rw [manage_step, if_pos hO, hbe, except_ok_bind, hfc, except_ok_bind]
    refine ⟨?_, ?_, ?_, ?_⟩
    · rw [managePos, hm, f1]
      simp
    · rw [managePos, hm, f3]
      simp
    · rw [manageEvents, hm]
      rfl
    · rw [manageEvents, hm]
      simp [countBE_append, f5, countBE]
  · intro hno
    have hbe := breakeven_no_fire pos inp hno
    obtain ⟨p', evs, hfc, hnb⟩ := fill_checks_ok_of_ids pos inp a b ha hb
    obtain ⟨f1, f2, f3, f4, f5⟩ := fill_checks_fields pos inp p' evs hfc
    have hm : manage_step pos inp = Except.ok (p', [] ++ evs) := by
      rw [manage_step, if_pos hO, hbe, except_ok_bind, hfc, except_ok_bind]
    constructor
    · rw [managePos, hm, f1]
    · rw [manageEvents, hm]
      simpa using f5

/-- Witness for C6 (amended), on the spec's concrete scenario: LONG,
entry 100, stop 95, target 110, quote 106 — the adjustment fires: both exit
orders canceled, new stop at 100, new limit at 110, stop-loss becomes 100. -/
theorem breakeven_trigger_characterization_witness :
    (managePos w6pos c6inp).stop_loss = w6pos.entry_price ∧
    (managePos w6pos c6inp).target = w6pos.target ∧
    (manageEvents w6pos c6inp).take 5 =
      [Event.cancel 11, Event.cancel 12, Event.placeStop w6pos.entry_price,
       Event.placeLimit w6pos.target, Event.breakevenLog] ∧
    countBE (manageEvents w6pos c6inp) = 1 :=
  (breakeven_trigger_characterization w6pos c6inp 11 12 rfl rfl rfl).1
    (by
      constructor
      · simp only [favorable, w6pos, c6inp, quietInp]
        norm_num
      · simp only [slArmed, w6pos]
        norm_num)

/-- C6 (counterexample): an `OPEN` LONG Position with entry 100, target 110
and `stop_loss = 105` (so the stop has NOT "already been set to the entry
price") at quote 106 (beyond the midpoint 105): the claim says the
adjustment must trigger (cancel both orders, set `stop_loss = 100`), but the
source's guard is `stop_loss < entry_price`, which is false here — the cycle
leaves the position untouched and emits no events. -/
theorem breakeven_not_triggered_despite_claim_condition :
    manage_step c6pos c6inp = Except.ok (c6pos, []) ∧
    favorable c6pos c6inp.last_price = true ∧
    ¬c6pos.stop_loss = c6pos.entry_price ∧
    c6pos.stop_loss = 105 := by
  have hO : c6pos.status = PosStatus.OPEN := rfl
  have harm : slArmed c6pos = false := by
    simp only [slArmed, c6pos]
    norm_num
  have hbe := breakeven_no_fire c6pos c6inp (by simp [harm])
  refine ⟨?_, ?_, ?_, rfl⟩
  · rw [manage_step, if_pos hO, hbe, except_ok_bind,
      fill_checks_no_fill c6pos c6inp 11 12 rfl rfl (by simp [c6inp, quietInp])
        (by simp [c6inp, quietInp]), except_ok_bind]
    rfl
  · simp only [favorable, c6pos, c6inp, quietInp]
    norm_num
  · simp only [c6pos]
    norm_num

/-- C9: for every `OPEN` Position, one `manage_positions` cycle reads
`pos['sl_order_id']` and `pos['target_order_id']` unconditionally: when
either key is missing (an exit-order placement that failed left it unset)
the cycle raises `KeyError` (an uncaught exception), and when both are
present the cycle completes without a key-lookup error. -/
theorem open_cycle_requires_exit_ids (pos : Position) (inp : CycleInput)
    (hO : pos.status = PosStatus.OPEN) :
    ((pos.sl_order_id = none ∨ pos.target_order_id = none) →
      isError (manage_step pos inp) = true) ∧
    (pos.sl_order_id.isSome = true → pos.target_order_id.isSome = true →
      isError (manage_step pos inp) = false) := by
  constructor
  · intro hmiss
    rcases breakeven_missing_id pos inp hmiss with hbe | ⟨e, hbe⟩
    · obtain ⟨e, hfc⟩ := fill_checks_missing_id pos inp hmiss
      rw [manage_step, if_pos hO, hbe, except_ok_bind, hfc]
      rfl
    · rw [manage_step, if_pos hO, hbe]
      rfl
  · intro hsl htgt
    obtain ⟨a, ha⟩ := Option.isSome_iff_exists.mp hsl
    obtain ⟨b, hb⟩ := Option.isSome_iff_exists.mp htgt
    cases hbe : breakeven_check pos inp with
    | error e =>
      exfalso
      by_cases hc : favorable pos inp.last_price = true ∧ slArmed pos = true
      · rw [breakeven_fire pos inp a b hc.1 hc.2 ha hb] at hbe
        exact Except.noConfusion hbe
      · rw [breakeven_no_fire pos inp hc] at hbe
        exact Except.noConfusion hbe
    | ok r1 =>
      obtain ⟨q1, e1⟩ := r1
      have hids : q1.sl_order_id.isSome = true ∧
          q1.target_order_id.isSome = true := by
        by_cases hc : favorable pos inp.last_price = true ∧ slArmed pos = true
        · rw [breakeven_fire pos inp a b hc.1 hc.2 ha hb] at hbe
          simp only [Except.ok.injEq, Prod.mk.injEq] at hbe
          rw [← hbe.1]
          constructor
          · exact place_exit_orders_sl_isSome _ _ _ (by simp [ha])
          · exact place_exit_orders_tgt_isSome _ _ _ (by simp [hb])
        · rw [breakeven_no_fire pos inp hc] at hbe
          simp only [Except.ok.injEq, Prod.mk.injEq] at hbe
          rw [← hbe.1]
          exact ⟨by simp [ha], by simp [hb]⟩
      obtain ⟨a', ha'⟩ := Option.isSome_iff_exists.mp hids.1
      obtain ⟨b', hb'⟩ := Option.isSome_iff_exists.mp hids.2
      obtain ⟨p', evs, hfc, _⟩ := fill_checks_ok_of_ids q1 inp a' b' ha' hb'
      rw [manage_step, if_pos hO, hbe, except_ok_bind, hfc, except_ok_bind]
      rfl

/-- Witness for C9: a concrete `OPEN` position with both ids missing raises,
and the same position with both ids recorded completes the cycle. -/
theorem open_cycle_requires_exit_ids_witness :
    isError (manage_step c9pos quietInp) = true ∧
    isError (manage_step w6pos quietInp) = false :=
  ⟨(open_cycle_requires_exit_ids c9pos quietInp rfl).1 (Or.inl rfl),
   (open_cycle_requires_exit_ids w6pos quietInp rfl).2 rfl rfl⟩

theorem event_loop_processes_all (outs : List TickOutcome) :
    ∀ logs : List String, TickOutcome.interrupt ∉ outs →
      (event_loop logs outs).2 = outs.length ∧
      (event_loop logs outs).1 = logs ++ outs.filterMap errOf := by
  induction outs with
  | nil => intro logs _; simp [event_loop]
  | cons o rest ih =>
    intro logs h
    have hrest : TickOutcome.interrupt ∉ rest :=
      fun hm => h (List.mem_cons_of_mem _ hm)
    cases o with
    | interrupt => exact absurd (List.mem_cons_self _ _) h
    | ok =>
      rw [event_loop]
      obtain ⟨i1, i2⟩ := ih logs hrest
      exact ⟨by simp [i1], by simp [i2, errOf]⟩
    | raises m =>
      rw [event_loop]
      obtain ⟨i1, i2⟩ := ih (logs ++ [loopErrMsg m]) hrest
      refine ⟨by simp [i1], ?_⟩
      rw [i2]
      simp [errOf]

theorem c9_manage_error :
    manage_step c9pos quietInp = Except.error ("KeyError: sl_order_id") := by
  have hO : c9pos.status = PosStatus.OPEN := rfl
  have hbe := breakeven_no_fire c9pos quietInp (by
    rintro ⟨hfav, -⟩
    simp only [favorable, c9pos, quietInp] at hfav
    norm_num at hfav)
  have hfc : fill_checks c9pos quietInp =
      Except.error ("KeyError: sl_order_id") := by
    simp [fill_checks, show c9pos.sl_order_id = none from rfl]
  rw [manage_step, if_pos hO, hbe, except_ok_bind, hfc, except_error_bind]

theorem c4_cycle_error :
    run_cycle [] c4reg c4orc = Except.error ("KeyError: sl_order_id") := by
  have hcheck : check_open_orders c4orc c4reg = (c4reg, []) := by
    simp [check_open_orders, c4reg,
      check_step_skip c9pos (c4orc ("NSE:RELIANCE")) (Or.inl (by decide))]
  have hmp : manage_positions c4orc c4reg =
      Except.error ("KeyError: sl_order_id") := by
    have : c4orc ("NSE:RELIANCE") = quietInp := rfl
    simp [manage_positions, c4reg, this, c9_manage_error]
  rw [run_cycle, hcheck]
  simp [analyze_and_trade, hmp]

/-- C4 (amended): the event-driven loop of `run_strategy` catches every
exception raised while processing a dequeued tick, appends the error line to
the log channel, and continues with the next iteration — only a
`KeyboardInterrupt` terminates it. The period-aligned variant
(`FVGStrategy.run`) does NOT share this property: it has no exception
handler, so an exception raised in a cycle propagates out of the loop
(formalized: a cycle returning an error makes the whole loop return that
error regardless of remaining cycles). -/
theorem control_loop_exception_policy (logs : List String)
    (outs : List TickOutcome) (h : TickOutcome.interrupt ∉ outs) :
    ((event_loop logs outs).2 = outs.length ∧
      (event_loop logs outs).1 = logs ++ outs.filterMap errOf) ∧
    (∀ (syms : List String) (ps : Registry) (orc : String → CycleInput)
        (orcs : List (String → CycleInput)) (e : String),
      run_cycle syms ps orc = Except.error e →
      run_loop syms ps (orc :: orcs) = Except.error e) := by
  refine ⟨event_loop_processes_all outs logs h, ?_⟩
  intro syms ps orc orcs e hc
  simp [run_loop, hc]

/-- Witness for C4 (amended): a two-outcome run with one raising iteration
is fully processed with the error logged, and a concrete failing
`FVGStrategy.run` cycle makes the period-aligned loop return the error. -/
theorem control_loop_exception_policy_witness :
    ((event_loop [] [TickOutcome.ok, TickOutcome.raises ("boom")]).2 = 2 ∧
      (event_loop [] [TickOutcome.ok, TickOutcome.raises ("boom")]).1 =
        [] ++ [TickOutcome.ok, TickOutcome.raises ("boom")].filterMap errOf) ∧
    run_loop [] c4reg [c4orc, c4orc] =
      Except.error ("KeyError: sl_order_id") := by
  have h := control_loop_exception_policy []
    [TickOutcome.ok, TickOutcome.raises ("boom")] (by simp)
  exact ⟨h.1, h.2 [] c4reg c4orc [c4orc] ("KeyError: sl_order_id")
    c4_cycle_error⟩

/-- C4 (counterexample): the period-aligned loop of `FVGStrategy.run` does
not catch exceptions: with a registry holding an `OPEN` position whose
`sl_order_id` key is missing, the first cycle raises `KeyError` and the loop
terminates with that uncaught exception instead of logging and continuing
(the second scheduled cycle is never executed). -/
theorem run_loop_terminates_on_exception :
    run_loop [] c4reg [c4orc, c4orc] =
      Except.error ("KeyError: sl_order_id") := by
  simp [run_loop, c4_cycle_error]

theorem check_step_entryFree (pos : Position) (inp : CycleInput) :
    entryFree (check_open_orders_step pos inp).2 := by
  intro x
  by_cases hP : pos.status = PosStatus.PENDING_ENTRY
  · by_cases hF : inp.entryStatus = OrderStatus.FILLED
    · rw [check_step_fill pos inp hP hF]; simp
    · rw [check_step_skip pos inp (Or.inr hF)]; simp
  · rw [check_step_skip pos inp (Or.inl hP)]; simp

theorem breakeven_entryFree (pos : Position) (inp : CycleInput)
    (q : Position) (evs : List Event)
    (h : breakeven_check pos inp = Except.ok (q, evs)) : entryFree evs := by
  intro x
  by_cases hc : favorable pos inp.last_price = true ∧ slArmed pos = true
  · cases hsl : pos.sl_order_id with
    | none =>
      rcases breakeven_missing_id pos inp (Or.inl hsl) with hbe | ⟨e, hbe⟩
      · rw [hbe] at h
        simp only [Except.ok.injEq, Prod.mk.injEq] at h
        rw [← h.2]; simp
      · rw [hbe] at h; exact absurd h (by simp)
    | some a =>
      cases htgt : pos.target_order_id with
      | none =>
        rcases breakeven_missing_id pos inp (Or.inr htgt) with hbe | ⟨e, hbe⟩
        · rw [hbe] at h
          simp only [Except.ok.injEq, Prod.mk.injEq] at h
          rw [← h.2]; simp
        · rw [hbe] at h; exact absurd h (by simp)
      | some b =>
        rw [breakeven_fire pos inp a b hc.1 hc.2 hsl htgt] at h
        simp only [Except.ok.injEq, Prod.mk.injEq] at h
        rw [← h.2]; simp
  · rw [breakeven_no_fire pos inp hc] at h
    simp only [Except.ok.injEq, Prod.mk.injEq] at h
    rw [← h.2]; simp

theorem fill_checks_entryFree (pos1 : Position) (inp : CycleInput)
    (p' : Position) (evs : List Event)
    (h : fill_checks pos1 inp = Except.ok (p', evs)) : entryFree evs := by
  intro x
  cases hsl : pos1.sl_order_id with
  | none =>
    rcases fill_checks_missing_id pos1 inp (Or.inl hsl) with ⟨e, he⟩
    rw [he] at h; exact absurd h (by simp)
  | some a =>
    cases htgt : pos1.target_order_id with
    | none =>
      rcases fill_checks_missing_id pos1 inp (Or.inr htgt) with ⟨e, he⟩
      rw [he] at h; exact absurd h (by simp)
    | some b =>
      by_cases hs : inp.slStatus = OrderStatus.FILLED <;>
        by_cases ht : inp.tgtStatus = OrderStatus.FILLED
      · rw [fill_checks_both_filled pos1 inp a b hsl htgt hs ht] at h
        simp only [Except.ok.injEq, Prod.mk.injEq] at h
        rw [← h.2]; simp
      · rw [fill_checks_sl_filled pos1 inp a b hsl htgt hs ht] at h
        simp only [Except.ok.injEq, Prod.mk.injEq] at h
        rw [← h.2]; simp
      · rw [fill_checks_tgt_filled pos1 inp a b hsl htgt hs ht] at h
        simp only [Except.ok.injEq, Prod.mk.injEq] at h
        rw [← h.2]; simp
      · rw [fill_checks_no_fill pos1 inp a b hsl htgt hs ht] at h
        simp only [Except.ok.injEq, Prod.mk.injEq] at h
        rw [← h.2]; simp

theorem manage_step_entryFree (pos : Position) (inp : CycleInput)
    (p' : Position) (evs : List Event)
    (h : manage_step pos inp = Except.ok (p', evs)) : entryFree evs := by
  intro x
  by_cases hO : pos.status = PosStatus.OPEN
  · rw [manage_step, if_pos hO] at h
    cases hbe : breakeven_check pos inp with
    | error e => rw [hbe] at h; exact absurd h (by simp)
    | ok r1 =>
      obtain ⟨q1, e1⟩ := r1
      rw [hbe, except_ok_bind] at h
      cases hfc : fill_checks q1 inp with
      | error e => rw [hfc] at h; exact absurd h (by simp)
      | ok r2 =>
        obtain ⟨q2, e2⟩ := r2
        rw [hfc, except_ok_bind] at h
        simp only [Except.ok.injEq, Prod.mk.injEq] at h
        rw [← h.2]
        intro hmem
        rcases List.mem_append.mp hmem with hh | hh
        · exact breakeven_entryFree pos inp q1 e1 hbe x hh
        · exact fill_checks_entryFree q1 inp q2 e2 hfc x hh
  · rw [manage_step_not_open pos inp hO] at h
    simp only [Except.ok.injEq, Prod.mk.injEq] at h
    rw [← h.2]; simp

@[simp] theorem hasPos_nil (sym : String) : hasPos [] sym = false := rfl

@[simp] theorem hasPos_cons (s : String) (p : Position) (l : Registry)
    (sym : String) :
    hasPos ((s, p) :: l) sym = (decide (s = sym) || hasPos l sym) := by
  simp [hasPos]

theorem hasPos_append (l1 l2 : Registry) (sym : String) :
    hasPos (l1 ++ l2) sym = (hasPos l1 sym || hasPos l2 sym) := by
  simp [hasPos, List.any_append]

theorem check_open_orders_hasPos (orc : String → CycleInput) (ps : Registry)
    (sym : String) :
    hasPos (check_open_orders orc ps).1 sym = hasPos ps sym := by
  induction ps with
  | nil => rfl
  | cons hd rest ih =>
    obtain ⟨s, p⟩ := hd
    simp [check_open_orders, ih]

theorem check_open_orders_noEntry (orc : String → CycleInput) (ps : Registry)
    (sym : String) (q : ℚ) :
    (sym, Event.placeEntryOrder q) ∉ (check_open_orders orc ps).2 := by
  induction ps with
  | nil => simp [check_open_orders]
  | cons hd rest ih =>
    obtain ⟨s, p⟩ := hd
    simp only [check_open_orders, List.mem_append, List.mem_map, not_or]
    constructor
    · rintro ⟨e, hmem, heq⟩
      injection heq with hs he
      rw [he] at hmem
      exact check_step_entryFree p (orc s) q hmem
    · exact ih

theorem analyze_and_trade_mono (syms : List String) (ps : Registry)
    (orc : String → CycleInput) (sym : String) (h : hasPos ps sym = true) :
    hasPos (analyze_and_trade syms ps orc).1 sym = true ∧
    ∀ q, (sym, Event.placeEntryOrder q) ∉ (analyze_and_trade syms ps orc).2 := by
  induction syms generalizing ps with
  | nil => exact ⟨h, by simp [analyze_and_trade]⟩
  | cons s rest ih =>
    have hstep : hasPos (analyze_symbol ps s orc).1 sym = true ∧
        ∀ q, (sym, Event.placeEntryOrder q) ∉ (analyze_symbol ps s orc).2 := by
      by_cases hs : hasPos ps s = true
      · simp [analyze_symbol, hs, h]
      · have hne : ¬s = sym := by
          intro he; rw [he] at hs; exact hs h
        cases hsig : (orc s).signal with
        | none => simp [analyze_symbol, hs, hsig, h]
        | some sig =>
          by_cases hr : (orc s).signalResp.status = "ok"
          · constructor
            · simp [analyze_symbol, hs, hsig, place_order_entry, hr,
                hasPos_append, h]
            · intro q
              simp only [analyze_symbol, hs, hsig, place_order_entry, hr,
                if_true, if_false, Bool.false_eq_true, reduceIte,
                List.mem_singleton, Prod.mk.injEq, not_and]
              intro he
              exact absurd he.symm hne
          · constructor
            · simp [analyze_symbol, hs, hsig, place_order_entry, hr, h]
            · intro q
              simp only [analyze_symbol, hs, hsig, place_order_entry, hr,
                if_true, if_false, Bool.false_eq_true, reduceIte,
                List.mem_singleton, Prod.mk.injEq, not_and]
              intro he
              exact absurd he.symm hne
    obtain ⟨h1, h2⟩ := hstep
    obtain ⟨i1, i2⟩ := ih (analyze_symbol ps s orc).1 h1
    constructor
    · simpa [analyze_and_trade] using i1
    · intro q
      simp only [analyze_and_trade, List.mem_append, not_or]
      exact ⟨h2 q, i2 q⟩

theorem manage_positions_mono (orc : String → CycleInput) (ps : Registry)
    (ps' : Registry) (evs : List (String × Event))
    (h : manage_positions orc ps = Except.ok (ps', evs)) (sym : String) :
    hasPos ps' sym = hasPos ps sym ∧
    ∀ q, (sym, Event.placeEntryOrder q) ∉ evs := by
  induction ps generalizing ps' evs with
  | nil =>
    simp only [manage_positions, Except.ok.injEq, Prod.mk.injEq] at h
    obtain ⟨hp, he⟩ := h
    rw [← hp, ← he]
    simp
  | cons hd rest ih =>
    obtain ⟨s, p⟩ := hd
    rw [manage_positions] at h
    cases hm : manage_step p (orc s) with
    | error e => rw [hm] at h; exact absurd h (by simp)
    | ok r =>
      obtain ⟨q1, e1⟩ := r
      rw [hm, except_ok_bind] at h
      cases hmp : manage_positions orc rest with
      | error e => rw [hmp] at h; exact absurd h (by simp)
      | ok rr =>
        obtain ⟨ps2, e2⟩ := rr
        rw [hmp, except_ok_bind] at h
        simp only [Except.ok.injEq, Prod.mk.injEq] at h
        obtain ⟨hp, he⟩ := h
        obtain ⟨i1, i2⟩ := ih ps2 e2 hmp
        constructor
        · rw [← hp]; simp [i1]
        · intro q
          rw [← he]
          simp only [List.mem_append, List.mem_map, not_or]
          constructor
          · rintro ⟨e, hmem, heq⟩
            injection heq with hs' he'
            rw [he'] at hmem
            exact manage_step_entryFree p (orc s) q1 e1 hm q hmem
          · exact i2 q

theorem run_cycle_keeps_symbol (syms : List String) (ps : Registry)
    (orc : String → CycleInput) (sym : String) (ps1 : Registry)
    (e1 : List (String × Event)) (h : hasPos ps sym = true)
    (hr : run_cycle syms ps orc = Except.ok (ps1, e1)) :
    hasPos ps1 sym = true ∧ ∀ q, (sym, Event.placeEntryOrder q) ∉ e1 := by
  rw [run_cycle] at hr
  cases hmp : manage_positions orc
      (analyze_and_trade syms (check_open_orders orc ps).1 orc).1 with
  | error e => rw [hmp] at hr; exact absurd hr (by simp)
  | ok r =>
    obtain ⟨psm, em⟩ := r
    rw [hmp, except_ok_bind] at hr
    simp only [Except.ok.injEq, Prod.mk.injEq] at hr
    obtain ⟨hp, he⟩ := hr
    have hc : hasPos (check_open_orders orc ps).1 sym = true := by
      rw [check_open_orders_hasPos]; exact h
    obtain ⟨a1, a2⟩ :=
      analyze_and_trade_mono syms (check_open_orders orc ps).1 orc sym hc
    obtain ⟨m1, m2⟩ := manage_positions_mono orc _ psm em hmp sym
    constructor
    · rw [← hp, m1]; exact a1
    · intro q
      rw [← he]
      simp only [List.mem_append, not_or]
      exact ⟨⟨check_open_orders_noEntry orc ps sym q, a2 q⟩, m2 q⟩

/-- C10: once a symbol has an entry in the positions registry — including a
terminal `CLOSED_SL`/`CLOSED_TARGET` one — every later control-loop run
keeps the entry (no operation removes registry entries) and never places
another entry order for that symbol (`analyze_and_trade` skips symbols
already present, and entry orders are placed nowhere else): at most one
Position is ever created per symbol over the lifetime of the strategy
process. -/
theorem symbol_position_created_at_most_once (syms : List String)
    (orcs : List (String → CycleInput)) (ps : Registry) (sym : String)
    (ps' : Registry) (evs : List (String × Event))
    (h : hasPos ps sym = true)
    (hr : run_loop syms ps orcs = Except.ok (ps', evs)) :
    hasPos ps' sym = true ∧ ∀ q, (sym, Event.placeEntryOrder q) ∉ evs := by
  induction orcs generalizing ps ps' evs with
  | nil =>
    simp only [run_loop, Except.ok.injEq, Prod.mk.injEq] at hr
    obtain ⟨hp, he⟩ := hr
    rw [← hp, ← he]
    exact ⟨h, by simp⟩
  | cons orc rest ih =>
    rw [run_loop] at hr
    cases hc : run_cycle syms ps orc with
    | error e => rw [hc] at hr; exact absurd hr (by simp)
    | ok r =>
      obtain ⟨ps1, e1⟩ := r
      rw [hc, except_ok_bind] at hr
      cases hl : run_loop syms ps1 rest with
      | error e => rw [hl] at hr; exact absurd hr (by simp)
      | ok rr =>
        obtain ⟨ps2, e2⟩ := rr
        rw [hl, except_ok_bind] at hr
        simp only [Except.ok.injEq, Prod.mk.injEq] at hr
        obtain ⟨hp, he⟩ := hr
        obtain ⟨c1, c2⟩ := run_cycle_keeps_symbol syms ps orc sym ps1 e1 h hc
        obtain ⟨l1, l2⟩ := ih ps1 ps2 e2 c1 hl
        refine ⟨by rw [← hp]; exact l1, ?_⟩
        intro q
        rw [← he]
        simp only [List.mem_append, not_or]
        exact ⟨c2 q, l2 q⟩

/-- Witness for C10: a registry already holding `NSE:X` (closed) run for one
cycle with `NSE:X` in the symbol universe: the entry survives and no entry
order is placed for it. -/
theorem symbol_position_created_at_most_once_witness :
    hasPos wReg ("NSE:X") = true ∧
    ("NSE:X", Event.placeEntryOrder 0) ∉ ([] : List (String × Event)) := by
  have hr : run_loop wSyms wReg [c4orc] = Except.ok (wReg, []) := by rfl
  have h := symbol_position_created_at_most_once wSyms [c4orc] wReg
    ("NSE:X") wReg [] (by rfl) hr
  exact ⟨h.1, h.2 0⟩

theorem mgrInv_start (w : World) (n : String) (c : Bool) (h : MgrInv w) :
    MgrInv (startOp w n c).1 := by
  by_cases ha : heldAlive w = true
  · simpa [startOp, ha] using h
  · by_cases hc : c = true
    · simp only [startOp, ha, hc, Bool.false_eq_true, if_false, if_true]
      intro i hi
      rcases Nat.lt_trichotomy i w.procs.length with hlt | heq | hgt
      · exfalso
        have hal : isAlive w i = true := by
          simp only [isAlive, spawnProc] at hi ⊢
          rw [List.getElem?_append] at hi
          rwa [if_pos hlt] at hi
        have hheld := h i hal
        apply ha
        simp [heldAlive, hheld, hal]
      · simp [spawnProc, heq]
      · exfalso
        have : (w.procs ++ [true])[i]? = none := by
          apply List.getElem?_eq_none
          simp
          omega
        simp [isAlive, spawnProc, this] at hi
    · simpa [startOp, ha, hc] using h

theorem mgrInv_set_false (procs : List Bool) (held : Option Nat) (k : Nat)
    (h : MgrInv { procs := procs, held := held }) :
    MgrInv { procs := procs.set k false, held := held } := by
  intro j hj
  by_cases hjk : k = j
  · exfalso
    subst hjk
    simp only [isAlive] at hj
    rw [List.getElem?_set_self'] at hj
    cases hk : procs[k]? with
    | none => rw [hk] at hj; simp at hj
    | some b => rw [hk] at hj; simp at hj
  · apply h j
    simp only [isAlive] at hj ⊢
    rwa [List.getElem?_set_ne hjk] at hj

theorem mgrInv_stop (w : World) (h : MgrInv w) : MgrInv (stopOp w).1 := by
  cases hh : w.held with
  | none => simpa [stopOp, hh] using h
  | some k =>
    by_cases hk : isAlive w k = true
    · have hset := mgrInv_set_false w.procs w.held k (by simpa using h)
      rw [hh] at hset
      simpa [stopOp, hh, hk] using hset
    · simpa [stopOp, hh, hk] using h

theorem mgrInv_childExit (w : World) (i : Nat) (h : MgrInv w) :
    MgrInv (childExitOp w i) :=
  mgrInv_set_false w.procs w.held i (by simpa using h)

theorem mgrRun_inv (ops : List MgrOp) (w : World) (h : MgrInv w) :
    MgrInv (mgrRun w ops) := by
  induction ops generalizing w with
  | nil => exact h
  | cons op rest ih =>
    cases op with
    | start n c => exact ih _ (mgrInv_start w n c h)
    | stop => exact ih _ (mgrInv_stop w h)
    | childExit i => exact ih _ (mgrInv_childExit w i h)

/-- C7: over every sequence of `start`/`stop` operations (and spontaneous
child exits) on one `StrategyManager`, at most one child process is alive at
any time (any two live spawn indices coincide); and whenever the held
process is alive, a further `start` returns "Strategy is already running."
and changes nothing — no process is spawned, the world is untouched. -/
theorem manager_at_most_one_process (ops : List MgrOp) (i j : Nat)
    (n : String) (c : Bool) :
    (isAlive (mgrRun World.start ops) i = true →
      isAlive (mgrRun World.start ops) j = true → i = j) ∧
    (heldAlive (mgrRun World.start ops) = true →
      startOp (mgrRun World.start ops) n c =
        (mgrRun World.start ops, "Strategy is already running.")) := by
  have hinv : MgrInv (mgrRun World.start ops) :=
    mgrRun_inv ops World.start (by intro i hi; simp [isAlive, World.start] at hi)
  constructor
  · intro hi hj
    have h1 := hinv i hi
    have h2 := hinv j hj
    rw [h1] at h2
    exact Option.some.inj h2
  · intro ha
    simp [startOp, ha]

/-- Witness for C7: after one successful `start`, the held process is alive
and a second `start` is the identity returning "already running". -/
theorem manager_at_most_one_process_witness :
    (0 : Nat) = 0 ∧
    startOp (mgrRun World.start [MgrOp.start ("fvg_strategy") true])
        ("fvg_strategy") true =
      (mgrRun World.start [MgrOp.start ("fvg_strategy") true],
       "Strategy is already running.") :=
  ⟨(manager_at_most_one_process [MgrOp.start ("fvg_strategy") true] 0 0
      ("fvg_strategy") true).1 rfl rfl,
   (manager_at_most_one_process [MgrOp.start ("fvg_strategy") true] 0 0
      ("fvg_strategy") true).2 rfl⟩

theorem get_logs_loop_spec (q : List String) :
    ∀ acc : List String, get_logs_loop acc q = (acc ++ q, []) := by
  induction q with
  | nil => intro acc; simp [get_logs_loop]
  | cons m rest ih =>
    intro acc
    rw [get_logs_loop, ih]
    simp

/-- C8: `get_logs` drains the buffer — it returns the whole buffer in order
and leaves it empty, so an immediate second call returns `[]`; and over any
interleaving of producer `put`s and `get_logs` calls, the concatenation of
everything the calls returned followed by what remains buffered equals the
initial buffer followed by all produced messages, in order — every message
is returned exactly once, never twice, never dropped. -/
theorem get_logs_drains_exactly_once (q : List String) (ops : List LogOp) :
    get_logs q = (q, []) ∧
    (get_logs (get_logs q).2).1 = [] ∧
    (runLog q ops).2 ++ (runLog q ops).1 = q ++ putsOf ops := by
  have hgl : ∀ r : List String, get_logs r = (r, []) := by
    intro r
    rw [get_logs, get_logs_loop_spec r []]
    simp
  refine ⟨hgl q, by rw [hgl q]; simp [hgl], ?_⟩
  induction ops generalizing q with
  | nil => simp [runLog, putsOf]
  | cons op rest ih =>
    cases op with
    | put m =>
      rw [runLog, putsOf]
      rw [ih (q ++ [m])]
      simp
    | drain =>
      rw [runLog, putsOf]
      simp only [hgl]
      rw [List.append_assoc]
      rw [ih []]
      simp

theorem consume_singleE (t : Tick)
    (h : (t.last_price.isSome || t.ltp.isSome) = true) :
    consume_entry (QEntry.singleE t) = some t := by
  simp [consume_entry, h]

/-- C2: an ordered batch `[A, B, C, ...]` of tick events handed to the
`on_ticks` callback in one call is forwarded element-by-element, in arrival
order, through the dispatch channel, and the consumer loop of
`run_strategy` passes exactly that sequence to the strategy — nothing
dropped, duplicated or reordered (each event carries a `last_price` or
`ltp` key, as ticks do). The `DataDispatcher` itself is modelled from the
spec, its module not being part of these sources. -/
theorem dispatcher_batch_in_order (batch : List Tick)
    (h : ∀ t ∈ batch, (t.last_price.isSome || t.ltp.isSome) = true) :
    drainQueue (on_ticks [] (TicksArg.listArg batch)) = batch := by
  simp only [on_ticks, dispatch, List.nil_append, drainQueue]
  induction batch with
  | nil => rfl
  | cons t rest ih =>
    rw [List.map_cons, List.filterMap_cons,
      consume_singleE t (h t (List.mem_cons_self t rest))]
    rw [ih (fun t' ht' => h t' (List.mem_cons_of_mem _ ht'))]

/-- Witness for C2: three concrete ticks are drained as exactly the
submitted batch. -/
theorem dispatcher_batch_in_order_witness :
    drainQueue (on_ticks [] (TicksArg.listArg [tickA, tickB, tickC])) =
      [tickA, tickB, tickC] :=
  dispatcher_batch_in_order [tickA, tickB, tickC]
    (by intro t ht; fin_cases ht <;> rfl)

end TradingAlgo
